import Mathlib

/-!
# Verification of the PAGASA advisory watcher (`src/main.py`)

A shallow embedding of the single-file Python program that polls the PAGASA
regional-forecast page, extracts two advisory sections, compares them with a
persisted snapshot and queues Telegram notifications for changed sections.

Conventions of the embedding:

* Text is `List Char`; a Python `str` value `s` corresponds to `s.toList`.
* `str.split('\n')`, `str.strip()`, `'\n'.join`, substring containment
  (`x in y`) and the one regular-expression substitution
  `re.sub(r'\n\s*\n+', '\n\n', s)` are modelled by executable functions
  defined below, each matching CPython semantics at its call site.
* The HTML page is modelled as a tree of nodes (`Node`); BeautifulSoup's
  `find` calls become explicit tree searches.  BeautifulSoup's `Tag` class
  defines `__bool__` as constantly `True` (added exactly so that empty tags
  stay truthy despite `__len__`), hence every `if not tag:` test in the
  source is an `is None` test; in particular the `content_source_div is
  None` branch of `parse_div_content` (the "Critical parsing error"
  message) is unreachable once the target div was found, and the model
  omits it.
* `fetch_website_content` and the Telegram delivery are external
  collaborators; a run consumes the fetch outcome as an `Option Doc`
  argument (`none` models both a transport error, which makes the Python
  function return `None`, and a falsy empty body, both rejected by
  `if not html_content:`).  The run is a function of a single fetch
  outcome: the program contains no retry.
-/

namespace Pagasa

/-! ## Python string primitives -/

/-- The characters Python's `str.strip()` and the regex class `\s` treat as
whitespace, restricted to the ASCII range (the page text is ASCII). -/
def isPySpace (c : Char) : Bool :=
  c = ' ' || c = '\t' || c = '\n' || c = '\r' || c = '\x0b' || c = '\x0c'

/-- Embeds Python `s.split('\n')` (line 85 of `main.py`): separators are
consumed, empty pieces are kept, and the empty string splits to `[""]`. -/
def splitNl : List Char → List (List Char)
  | [] => [[]]
  | c :: cs =>
    if c = '\n' then [] :: splitNl cs
    else
      match splitNl cs with
      | [] => [[c]]
      | l :: ls => (c :: l) :: ls

/-- Embeds Python `s.strip()` (lines 89 and 101 of `main.py`): drop leading
and trailing whitespace. -/
def pyStrip (l : List Char) : List Char :=
  ((l.dropWhile isPySpace).reverse.dropWhile isPySpace).reverse

/-- Embeds Python `'\n'.join(lines)` (line 95 of `main.py`): the pieces in
order with one `'\n'` between consecutive pieces. -/
def joinNl : List (List Char) → List Char
  | [] => []
  | [l] => l
  | l :: ls => l ++ '\n' :: joinNl ls

/-- Embeds `re.sub(r'\n\s*\n+', '\n\n', s)` (line 101 of `main.py`) under
CPython `re` semantics: scan left to right; a match can only start at a
`'\n'`; after that first newline the greedy `\s*` followed by `\n+` consumes
the following maximal whitespace run up to and including its last `'\n'`
(backtracking `\s*` until `\n+` can match), provided that run contains a
newline at all; the match is replaced by exactly two newlines and scanning
resumes after the consumed text. -/
def subCollapse : List Char → List Char
  | [] => []
  | c :: rest =>
    if c = '\n' then
      let ws := rest.takeWhile isPySpace
      let m := (ws.reverse.dropWhile (fun d => !(d = '\n'))).reverse
      if m.isEmpty then
        '\n' :: subCollapse rest
      else
        '\n' :: '\n' :: subCollapse (rest.drop m.length)
    else
      c :: subCollapse rest
termination_by l => l.length
decreasing_by
  · simp
  · simp only [List.length_drop, List.length_cons]
    omega
  · simp

/-- Lines 85–101 of `main.py`: split into lines, strip each line, rejoin
with single newlines, collapse blank runs with the regex, strip the whole
result. -/
def normalize_text (raw : List Char) : List Char :=
  pyStrip (subCollapse (joinNl ((splitNl raw).map pyStrip)))

/-- Embeds Python's substring test `sub in s` (used with `in content` at
lines 198, 217 and 221 of `main.py`). -/
def pyIn (sub : List Char) : List Char → Bool
  | [] => sub.isEmpty
  | c :: rest => sub.isPrefixOf (c :: rest) || pyIn sub rest

/-! ## The HTML model and `parse_div_content` -/

/-- An HTML node: a text node (`NavigableString`), a `<br>` tag, a `<div>`
tag with an optional `id` attribute, or any other element. -/
inductive Node where
  | text (s : List Char)
  | br
  | div (id : Option String) (children : List Node)
  | elem (children : List Node)
deriving Repr

/-- A parsed document is its list of top-level nodes. -/
abbrev Doc := List Node

/-- Embeds `soup.find("div", id=div_id)` (line 52): depth-first, document
order, first `div` whose id equals `div_id`. -/
def findDivById (i : String) : List Node → Option Node
  | [] => none
  | n :: rest =>
    match n with
    | .text _ => findDivById i rest
    | .br => findDivById i rest
    | .div j cs =>
      if j = some i then some (.div j cs)
      else
        match findDivById i cs with
        | some r => some r
        | none => findDivById i rest
    | .elem cs =>
      match findDivById i cs with
      | some r => some r
      | none => findDivById i rest

/-- Whether a node is a `div` tag. -/
def isDivNode : Node → Bool
  | .div _ _ => true
  | _ => false

/-- Embeds `target_div.find("div", recursive=False)` (line 59): the first
direct child that is a `div`, not descending into grandchildren. -/
def firstChildDiv (cs : List Node) : Option Node :=
  cs.find? isDivNode

/-- The direct children of a node (`tag.children`, line 70). -/
def childrenOf : Node → List Node
  | .text _ => []
  | .br => []
  | .div _ cs => cs
  | .elem cs => cs

/-- Lines 68–81: walk the direct children; a text node contributes its
literal text, a `<br>` contributes one newline, any other element
contributes nothing; concatenate. -/
def textParts (cs : List Node) : List Char :=
  (cs.map fun n =>
    match n with
    | .text s => s
    | .br => ['\n']
    | .div _ _ => []
    | .elem _ => []).flatten

/-- The configured section table `DIV_IDS` (lines 18–21). -/
def DIV_IDS : List (String × String) :=
  [("rainfalls", "Rainfall Advisory"), ("thunderstorms", "Thunderstorm Advisory/Watch")]

/-- Embeds `DIV_IDS.get(div_id, div_id)` (lines 56, 65, 107). -/
def divIdsGet (div_id : String) : String :=
  match DIV_IDS.lookup div_id with
  | some name => name
  | none => div_id

/-- The "section not found" sentinel (line 57). -/
def notFoundSentinel (div_id : String) : List Char :=
  ("The section for " ++ divIdsGet div_id ++ " could not be found on the page.").toList

/-- The "parse error" sentinel (line 108), produced by the `except` handler;
in the pure model no extraction step can fail, so no reachable path of
`parse_div_content` returns it, but it is the second of the two defined
sentinels of the component. -/
def parseErrorSentinel (div_id : String) : List Char :=
  ("Error parsing content for " ++ divIdsGet div_id ++ ".").toList

/-- Embeds `parse_div_content` (lines 44–108).  The function is total and
returns a `List Char` (never `None`); the Python `try`/`except` that maps
any exception to the parse-error sentinel has no counterpart because every
modelled step is total. -/
def parse_div_content (doc : Doc) (div_id : String) : List Char :=
  match findDivById div_id doc with
  | none => notFoundSentinel div_id
  | some target =>
    let source := (firstChildDiv (childrenOf target)).getD target
    normalize_text (textParts (childrenOf source))

/-! ## The change filter (`main`, lines 187–251) -/

/-- A queued outbound message (an element of `notifications_to_send`,
lines 233–238; the constant token and channel fields are omitted). -/
structure NotificationRequest where
  message : List Char
  type : String
deriving Repr, DecidableEq

/-- The three sentinel marker substrings of lines 217 and 221. -/
def sentinel_markers : List (List Char) :=
  ["could not be found".toList, "Error parsing".toList, "Critical parsing".toList]

/-- Embeds `any(err_msg in content for err_msg in [...])` (lines 217, 221). -/
def sentinelLike (content : List Char) : Bool :=
  sentinel_markers.any fun m => pyIn m content

/-- The `should_notify` decision (lines 212–229): on the overall first run,
or when this section has no previous entry, notify exactly when the content
is non-empty and matches no sentinel marker; otherwise notify exactly when
the content differs from the previous entry. -/
def should_notify_fn (is_first_overall_run : Bool) (previous_content : Option (List Char))
    (content : List Char) : Bool :=
  if is_first_overall_run then
    !content.isEmpty && !sentinelLike content
  else
    match previous_content with
    | none => !content.isEmpty && !sentinelLike content
    | some p => content != p

/-- Lines 231–238: queue a notification when `should_notify and content`
holds — the second conjunct is Python truthiness, so an empty `content`
is never queued. -/
def queued_notification (is_first_overall_run : Bool) (previous_content : Option (List Char))
    (content : List Char) (advisory_name : String) : Option NotificationRequest :=
  if should_notify_fn is_first_overall_run previous_content content && !content.isEmpty then
    some ⟨content, advisory_name⟩
  else none

/-- The loop of lines 193–240, with the extracted content of each section
supplied by `contents`: returns the queued notifications (in configured
section order) and the `current_data` mapping that line 251 persists. -/
def runFilter (is_first_overall_run : Bool) (previous_data : List (String × List Char))
    (contents : String → List Char) :
    List NotificationRequest × List (String × List Char) :=
  DIV_IDS.foldl
    (fun acc p =>
      let content := contents p.1
      let previous_content := previous_data.lookup p.1
      let q := queued_notification is_first_overall_run previous_content content p.2
      (acc.1 ++ q.toList, acc.2 ++ [(p.1, content)]))
    ([], [])

/-! ## Snapshot loading and the whole run -/

/-- The on-disk state of `weather_data.json` before the run: missing,
present but not decodable as JSON (this also covers the empty file, since
the empty string is not a JSON document), or a decoded mapping. -/
inductive FileState where
  | missing
  | undecodable
  | valid (data : List (String × List Char))

/-- Embeds `load_previous_data` (lines 111–124): a missing or undecodable
file yields the empty mapping. -/
def load_previous_data : FileState → List (String × List Char)
  | .missing => []
  | .undecodable => []
  | .valid d => d

/-- Embeds `is_first_overall_run = not os.path.exists(DATA_FILE)`
(line 191). -/
def is_first_overall_run : FileState → Bool
  | .missing => true
  | .undecodable => false
  | .valid _ => false

/-- The diagnostic message of line 182. -/
def fetchFailureMessage : List Char :=
  "Failed to fetch the latest weather data from PAGASA website. Please check the site directly.".toList

/-- The outcome of one run: either the fetch guard fired (lines 180–185),
carrying the single diagnostic notification and persisting nothing, or the
run completed with its queued notifications and the snapshot written by
line 251. -/
inductive RunOutcome where
  | fetchError (diagnostic : NotificationRequest)
  | completed (notifications : List NotificationRequest) (saved : List (String × List Char))

/-- Embeds `main` (lines 170–252) after the credential check, as a function
of the single fetch outcome and the snapshot-file state.  `fetched = none`
is the `if not html_content:` branch: one diagnostic notification, no
snapshot access, `return`. -/
def mainRun (fetched : Option Doc) (fs : FileState) : RunOutcome :=
  match fetched with
  | none => .fetchError ⟨fetchFailureMessage, "Website Fetch Error"⟩
  | some doc =>
    let previous_data := load_previous_data fs
    let r := runFilter (is_first_overall_run fs) previous_data
      (fun div_id => parse_div_content doc div_id)
    .completed r.1 r.2

/-- The snapshot a run persists, if any. -/
def RunOutcome.persisted : RunOutcome → Option (List (String × List Char))
  | .fetchError _ => none
  | .completed _ saved => some saved

/-- The diagnostic notifications of a run (nonempty only on fetch failure). -/
def RunOutcome.diagnostics : RunOutcome → List NotificationRequest
  | .fetchError d => [d]
  | .completed _ _ => []

/-- The change notifications a run queues. -/
def RunOutcome.notifications : RunOutcome → List NotificationRequest
  | .fetchError _ => []
  | .completed n _ => n

/-! ## Normal-form predicates for extractor output -/

/-- Whether the first line of a line list is blank. -/
def headBlank : List (List Char) → Bool
  | [] => false
  | l :: _ => l.isEmpty

/-- No two consecutive blank lines. -/
def noConsecBlank : List (List Char) → Bool
  | [] => true
  | [_] => true
  | a :: b :: rest => !(a.isEmpty && b.isEmpty) && noConsecBlank (b :: rest)

/-- The spec's normal form for extracted text (§4.1 steps 4–5): every line
is individually stripped, no run of blank lines longer than one, and no
blank line at the very start or end (the empty string is the degenerate
valid SectionText of step 6). -/
def isNormalized (s : List Char) : Bool :=
  (splitNl s).all (fun l => pyStrip l == l) && noConsecBlank (splitNl s) &&
    (s.isEmpty || (!headBlank (splitNl s) && !headBlank (splitNl s).reverse))

/-- A line fit for rejoining: free of newlines and stripped on both ends. -/
def okLine (l : List Char) : Bool :=
  decide ('\n' ∉ l) && (l.dropWhile isPySpace == l) &&
    (l.reverse.dropWhile isPySpace == l.reverse)

/-- Line-level image of `subCollapse` on a join of stripped lines: interior
runs of blank lines shrink to one blank line; a trailing run of two or more
blank lines shrinks to two (the regex rewrites the trailing newline run to
exactly two newlines); a lone trailing blank line survives. -/
def collapseLines : List (List Char) → List (List Char)
  | [] => []
  | [l] => [l]
  | l :: l2 :: rest =>
    if l2.isEmpty then
      match h : (l2 :: rest).dropWhile (fun x => x.isEmpty) with
      | [] => if rest.isEmpty then [l, []] else [l, [], []]
      | l3 :: rest' => l :: [] :: collapseLines (l3 :: rest')
    else
      l :: collapseLines (l2 :: rest)
termination_by ls => ls.length
decreasing_by
  · have hle := List.Sublist.length_le (h ▸ List.dropWhile_sublist (fun x : List Char => x.isEmpty))
    simp only [List.length_cons] at hle ⊢
    omega
  · simp

/-- Remove every trailing blank line. -/
def dropTrailingBlanks (ls : List (List Char)) : List (List Char) :=
  (ls.reverse.dropWhile fun l => l.isEmpty).reverse

/-- Line-level image of the final `strip()`: remove every leading and every
trailing blank line. -/
def dropBlankEnds (ls : List (List Char)) : List (List Char) :=
  dropTrailingBlanks (ls.dropWhile fun l => l.isEmpty)

/-! ## The Change Filter of the specification, for the suppress rule

The specification's Change Filter (§4.2) carries a suppress-phrase
exclusion rule and works over tagged SectionText values (§9).  No revision
of the script under `src/` contains that rule, so it is modelled here from
the specification text and verified as specified. -/

/-- Modelled from the spec: a SectionText is normalized prose or one of the
two sentinels, as a tagged value (§3, §9). -/
inductive SectionText where
  | found (text : List Char)
  | notFound
  | parseError
deriving Repr, DecidableEq

/-- Modelled from the spec: the per-Section Change Filter decision of §4.2,
including the suppress-phrase exclusion rule, which is absent from
`src/main.py`.  Step 2 decides: on the first run or a new section, notify
exactly when the SectionText is real non-empty content; otherwise notify
exactly when it differs from the previous SectionText.  The exclusion rule
takes priority: real content containing any configured suppress phrase is
never notified.  Step 4 always writes the current SectionText into the
Snapshot under construction. -/
def spec_filterSection (suppress : List (List Char)) (is_first_run : Bool)
    (prev : Option SectionText) (cur : SectionText) : Option SectionText × SectionText :=
  let isReal : Bool :=
    match cur with
    | .found t => !t.isEmpty
    | _ => false
  let suppressed : Bool :=
    match cur with
    | .found t => suppress.any fun ph => pyIn ph t
    | _ => false
  let base : Bool :=
    if is_first_run then isReal
    else
      match prev with
      | none => isReal
      | some p => cur != p
  (if !suppressed && base then some cur else none, cur)

/-! ## Helper lemmas: splitting and joining lines -/

theorem splitNl_ne_nil (s : List Char) : splitNl s ≠ [] := by
  induction s with
  | nil => simp [splitNl]
  | cons c cs ih =>
    simp only [splitNl]
    split
    · simp
    · cases h : splitNl cs with
      | nil => simp
      | cons l ls => simp

theorem not_newline_mem_splitNl (s : List Char) : ∀ l ∈ splitNl s, '\n' ∉ l := by
  induction s with
  | nil =>
    intro l hl
    simp only [splitNl, List.mem_singleton] at hl
    simp [hl]
  | cons c cs ih =>
    intro l hl
    simp only [splitNl] at hl
    by_cases hc : c = '\n'
    · rw [if_pos hc] at hl
      rcases List.mem_cons.mp hl with h | h
      · simp [h]
      · exact ih l h
    · rw [if_neg hc] at hl
      cases h : splitNl cs with
      | nil => exact absurd h (splitNl_ne_nil cs)
      | cons x xs =>
        rw [h] at hl
        rcases List.mem_cons.mp hl with h' | h'
        · subst h'
          intro hmem
          rcases List.mem_cons.mp hmem with h'' | h''
          · exact hc h''.symm
          · exact ih x (h ▸ List.mem_cons_self x xs) h''
        · exact ih l (h ▸ List.mem_cons_of_mem x h')

theorem joinNl_cons_of_ne_nil (l : List Char) {ls : List (List Char)} (h : ls ≠ []) :
    joinNl (l :: ls) = l ++ '\n' :: joinNl ls := by
  cases ls with
  | nil => exact absurd rfl h
  | cons x xs => rfl

theorem joinNl_splitNl (s : List Char) : joinNl (splitNl s) = s := by
  induction s with
  | nil => rfl
  | cons c cs ih =>
    simp only [splitNl]
    by_cases hc : c = '\n'
    · rw [if_pos hc, joinNl_cons_of_ne_nil _ (splitNl_ne_nil cs), ih, hc]
      rfl
    · rw [if_neg hc]
      cases h : splitNl cs with
      | nil => exact absurd h (splitNl_ne_nil cs)
      | cons x xs =>
        rw [h] at ih
        cases xs with
        | nil =>
          simp only [joinNl] at ih ⊢
          rw [ih]
        | cons y ys =>
          have ih' : x ++ '\n' :: joinNl (y :: ys) = cs := ih
          show (c :: x) ++ '\n' :: joinNl (y :: ys) = c :: cs
          rw [← ih']
          rfl

theorem splitNl_of_no_newline {l : List Char} (h : '\n' ∉ l) : splitNl l = [l] := by
  induction l with
  | nil => rfl
  | cons c cs ih =>
    have hc : ¬c = '\n' := fun hcc => h (hcc ▸ List.mem_cons_self c cs)
    have hcs : '\n' ∉ cs := fun hm => h (List.mem_cons_of_mem c hm)
    simp only [splitNl, if_neg hc, ih hcs]

theorem splitNl_append_newline {l : List Char} (t : List Char) (h : '\n' ∉ l) :
    splitNl (l ++ '\n' :: t) = l :: splitNl t := by
  induction l with
  | nil => simp [splitNl]
  | cons c cs ih =>
    have hc : ¬c = '\n' := fun hcc => h (hcc ▸ List.mem_cons_self c cs)
    have hcs : '\n' ∉ cs := fun hm => h (List.mem_cons_of_mem c hm)
    show splitNl (c :: (cs ++ '\n' :: t)) = (c :: cs) :: splitNl t
    simp only [splitNl, if_neg hc, ih hcs]

theorem splitNl_joinNl {ls : List (List Char)} (hne : ls ≠ [])
    (h : ∀ l ∈ ls, '\n' ∉ l) : splitNl (joinNl ls) = ls := by
  induction ls with
  | nil => exact absurd rfl hne
  | cons l ls ih =>
    cases ls with
    | nil => exact splitNl_of_no_newline (h l (List.mem_cons_self _ _))
    | cons x xs =>
      rw [joinNl_cons_of_ne_nil _ (by simp),
        splitNl_append_newline _ (h l (List.mem_cons_self _ _)),
        ih (by simp) (fun m hm => h m (List.mem_cons_of_mem l hm))]

/-! ## Helper lemmas: stripping -/

theorem head?_dropWhile_not {α : Type} (p : α → Bool) (l : List α) :
    ∀ c, (l.dropWhile p).head? = some c → p c = false := by
  induction l with
  | nil => intro c hc; simp [List.dropWhile] at hc
  | cons a as ih =>
    intro c hc
    rw [List.dropWhile_cons] at hc
    by_cases hp : p a = true
    · exact ih c (by simpa [hp] using hc)
    · rw [if_neg hp] at hc
      simp only [List.head?_cons, Option.some_inj] at hc
      subst hc
      simpa using hp

theorem dropWhile_eq_self_of_head {α : Type} {p : α → Bool} {l : List α}
    (h : ∀ c, l.head? = some c → p c = false) : l.dropWhile p = l := by
  cases l with
  | nil => rfl
  | cons a as =>
    rw [List.dropWhile_cons, if_neg]
    simp [h a rfl]

theorem dropWhile_dropWhile {α : Type} (p : α → Bool) (l : List α) :
    (l.dropWhile p).dropWhile p = l.dropWhile p :=
  dropWhile_eq_self_of_head (head?_dropWhile_not p l)

theorem okLine_iff {l : List Char} :
    okLine l = true ↔
      '\n' ∉ l ∧ l.dropWhile isPySpace = l ∧ l.reverse.dropWhile isPySpace = l.reverse := by
  simp only [okLine, Bool.and_eq_true, decide_eq_true_eq, beq_iff_eq, and_assoc]

theorem okLine_nil : okLine ([] : List Char) = true := by decide

theorem pyStrip_eq_self_of_okLine {l : List Char} (h : okLine l = true) : pyStrip l = l := by
  obtain ⟨-, h1, h2⟩ := okLine_iff.mp h
  rw [pyStrip, h1, h2, List.reverse_reverse]

theorem okLine_dropTrailing {a : List Char}
    (hhead : ∀ c, a.head? = some c → isPySpace c = false) (hnl : '\n' ∉ a) :
    okLine ((a.reverse.dropWhile isPySpace).reverse) = true := by
  obtain ⟨t, ht⟩ := List.dropWhile_suffix (l := a.reverse) isPySpace
  have haeq : a = (a.reverse.dropWhile isPySpace).reverse ++ t.reverse := by
    conv_lhs => rw [← List.reverse_reverse a, ← ht]
    rw [List.reverse_append]
  rw [okLine_iff]
  refine ⟨?_, ?_, ?_⟩
  · intro hmem
    rw [List.mem_reverse] at hmem
    have h1 : '\n' ∈ a.reverse := (List.dropWhile_sublist _).subset hmem
    rw [List.mem_reverse] at h1
    exact hnl h1
  · refine dropWhile_eq_self_of_head fun c hc => ?_
    have hne : (a.reverse.dropWhile isPySpace).reverse ≠ [] := by
      intro hnil
      rw [hnil] at hc
      simp at hc
    refine hhead c ?_
    rw [haeq, List.head?_append_of_ne_nil _ hne]
    exact hc
  · rw [List.reverse_reverse]
    exact dropWhile_dropWhile _ _

theorem okLine_pyStrip {l : List Char} (h : '\n' ∉ l) : okLine (pyStrip l) = true := by
  refine okLine_dropTrailing (head?_dropWhile_not isPySpace l) ?_
  intro hmem
  exact h ((List.dropWhile_sublist _).subset hmem)

theorem okLine_head_not_space {l : List Char} (h : okLine l = true) :
    ∀ c, l.head? = some c → isPySpace c = false := by
  obtain ⟨-, h1, -⟩ := okLine_iff.mp h
  intro c hc
  exact head?_dropWhile_not isPySpace l c (by rw [h1]; exact hc)

theorem okLine_reverse {l : List Char} (h : okLine l = true) : okLine l.reverse = true := by
  obtain ⟨h0, h1, h2⟩ := okLine_iff.mp h
  rw [okLine_iff]
  refine ⟨by simpa [List.mem_reverse] using h0, h2, ?_⟩
  rw [List.reverse_reverse]
  exact h1

theorem takeWhile_eq_nil_of_head {α : Type} {p : α → Bool} {l : List α}
    (h : ∀ c, l.head? = some c → p c = false) : l.takeWhile p = [] := by
  cases l with
  | nil => rfl
  | cons a as =>
    rw [List.takeWhile_cons, if_neg]
    simp [h a rfl]

theorem takeWhile_append_of_all {α : Type} {p : α → Bool} {l₁ : List α} (l₂ : List α)
    (h : ∀ c ∈ l₁, p c = true) : (l₁ ++ l₂).takeWhile p = l₁ ++ l₂.takeWhile p := by
  induction l₁ with
  | nil => rfl
  | cons a as ih =>
    rw [List.cons_append, List.takeWhile_cons_of_pos (h a (List.mem_cons_self _ _)),
      ih fun c hc => h c (List.mem_cons_of_mem a hc), List.cons_append]

/-! ## Helper lemmas: the regex collapse pass -/

theorem subCollapse_nil : subCollapse [] = [] := by
  simp [subCollapse]

theorem subCollapse_cons_not_nl {c : Char} (hc : ¬c = '\n') (rest : List Char) :
    subCollapse (c :: rest) = c :: subCollapse rest := by
  rw [subCollapse]
  simp [hc]

theorem subCollapse_append {l : List Char} (rest : List Char) (h : '\n' ∉ l) :
    subCollapse (l ++ rest) = l ++ subCollapse rest := by
  induction l with
  | nil => rfl
  | cons c cs ih =>
    have hc : ¬c = '\n' := fun hcc => h (hcc ▸ List.mem_cons_self c cs)
    rw [List.cons_append, subCollapse_cons_not_nl hc,
      ih fun hm => h (List.mem_cons_of_mem c hm), List.cons_append]

theorem subCollapse_no_newline {l : List Char} (h : '\n' ∉ l) : subCollapse l = l := by
  rw [← List.append_nil l, subCollapse_append [] h, subCollapse_nil, List.append_nil]

theorem subCollapse_nl_single {rest : List Char}
    (h : ∀ c, rest.head? = some c → isPySpace c = false) :
    subCollapse ('\n' :: rest) = '\n' :: subCollapse rest := by
  rw [subCollapse]
  rw [if_pos rfl, takeWhile_eq_nil_of_head h]
  simp

theorem subCollapse_replicate_nl_append {k : Nat} (hk : 2 ≤ k) {rest : List Char}
    (h : ∀ c, rest.head? = some c → isPySpace c = false) :
    subCollapse (List.replicate k '\n' ++ rest) = '\n' :: '\n' :: subCollapse rest := by
  obtain ⟨k', rfl⟩ : ∃ k', k = k' + 1 := ⟨k - 1, by omega⟩
  have hk' : 1 ≤ k' := by omega
  have hws : (List.replicate k' '\n' ++ rest).takeWhile isPySpace = List.replicate k' '\n' := by
    rw [takeWhile_append_of_all _ fun c hc => by
        rcases (List.mem_replicate.mp hc) with ⟨-, rfl⟩; rfl,
      takeWhile_eq_nil_of_head h, List.append_nil]
  have hall : (List.replicate k' '\n').reverse.dropWhile (fun d => !(d = '\n')) =
      (List.replicate k' '\n').reverse := by
    refine dropWhile_eq_self_of_head fun c hc => ?_
    have hcmem : c ∈ (List.replicate k' '\n').reverse := by
      cases hx : (List.replicate k' '\n').reverse with
      | nil => rw [hx] at hc; simp at hc
      | cons y ys =>
        rw [hx] at hc
        simp only [List.head?_cons, Option.some_inj] at hc
        subst hc
        exact List.mem_cons_self _ _
    rw [List.mem_reverse] at hcmem
    rcases List.mem_replicate.mp hcmem with ⟨-, rfl⟩
    simp
  have hne : (List.replicate k' '\n').isEmpty = false := by
    cases k' with
    | zero => omega
    | succ m => simp [List.replicate_succ]
  rw [List.replicate_succ, List.cons_append, subCollapse]
  rw [if_pos rfl]
  dsimp only
  rw [hws, hall, List.reverse_reverse]
  rw [if_neg (by simp [hne])]
  rw [List.length_replicate, List.drop_left' (List.length_replicate k' '\n')]

theorem subCollapse_replicate_nl (k : Nat) :
    subCollapse (List.replicate k '\n') =
      if k ≤ 1 then List.replicate k '\n' else ['\n', '\n'] := by
  match k with
  | 0 => simp [subCollapse_nil]
  | 1 =>
    rw [if_pos (by omega)]
    simpa [List.replicate_succ, subCollapse_nil] using
      @subCollapse_nl_single [] (fun c hc => by simp at hc)
  | k + 2 =>
    rw [if_neg (by omega)]
    have := @subCollapse_replicate_nl_append (k + 2) (by omega) []
      (fun c hc => by simp at hc)
    rw [List.append_nil] at this
    rw [this, subCollapse_nil]

/-! ## Helper lemmas: joins of blank runs -/

theorem joinNl_empties_append {k : Nat} {X : List (List Char)} (hX : X ≠ []) :
    joinNl (List.replicate k [] ++ X) = List.replicate k '\n' ++ joinNl X := by
  induction k with
  | zero => rfl
  | succ m ih =>
    rw [List.replicate_succ, List.cons_append,
      joinNl_cons_of_ne_nil _ (by simp [hX]), ih, List.replicate_succ]
    rfl

theorem joinNl_empties {k : Nat} (hk : 1 ≤ k) :
    joinNl (List.replicate k []) = List.replicate (k - 1) '\n' := by
  induction k with
  | zero => omega
  | succ m ih =>
    cases m with
    | zero => rfl
    | succ m' =>
      rw [List.replicate_succ, joinNl_cons_of_ne_nil _ (by simp), ih (by omega)]
      simp [List.replicate_succ]

theorem joinNl_head? {l : List Char} (ls : List (List Char)) (hl : l ≠ []) :
    (joinNl (l :: ls)).head? = l.head? := by
  cases ls with
  | nil => rfl
  | cons x xs =>
    rw [joinNl_cons_of_ne_nil _ (by simp), List.head?_append_of_ne_nil _ hl]

/-! ## Helper lemmas: the line-level collapse -/

theorem collapseLines_nil : collapseLines [] = [] := by
  simp [collapseLines]

theorem collapseLines_singleton (l : List Char) : collapseLines [l] = [l] := by
  simp [collapseLines]

theorem collapseLines_cons_of_not_empty {l l2 : List Char} {rest : List (List Char)}
    (hl2 : l2.isEmpty = false) :
    collapseLines (l :: l2 :: rest) = l :: collapseLines (l2 :: rest) := by
  rw [collapseLines]
  simp [hl2]

theorem collapseLines_cons_blank_run {l l2 : List Char} {rest : List (List Char)}
    (hl2 : l2.isEmpty = true) {l3 : List Char} {rest' : List (List Char)}
    (hD : (l2 :: rest).dropWhile (fun x => x.isEmpty) = l3 :: rest') :
    collapseLines (l :: l2 :: rest) = l :: [] :: collapseLines (l3 :: rest') := by
  rw [collapseLines, if_pos hl2]
  split
  · next heq =>
    rw [hD] at heq
    exact absurd heq (List.cons_ne_nil _ _)
  · next l3' rest'' heq =>
    rw [hD] at heq
    injection heq with h1 h2
    subst h1
    subst h2
    rfl

theorem collapseLines_cons_blank_all {l l2 : List Char} {rest : List (List Char)}
    (hl2 : l2.isEmpty = true)
    (hD : (l2 :: rest).dropWhile (fun x => x.isEmpty) = []) :
    collapseLines (l :: l2 :: rest) = if rest.isEmpty then [l, []] else [l, [], []] := by
  rw [collapseLines, if_pos hl2]
  split
  · next heq => rfl
  · next l3' rest'' heq =>
    rw [hD] at heq
    exact absurd heq.symm (List.cons_ne_nil _ _)

theorem collapseLines_ne_nil : ∀ {ls : List (List Char)}, ls ≠ [] → collapseLines ls ≠ [] := by
  intro ls hls
  match ls with
  | [l] => simp [collapseLines_singleton]
  | l :: l2 :: rest =>
    by_cases hl2 : l2.isEmpty = true
    · cases hD : (l2 :: rest).dropWhile (fun x => x.isEmpty) with
      | nil =>
        rw [collapseLines_cons_blank_all hl2 hD]
        split <;> simp
      | cons l3 rest' =>
        rw [collapseLines_cons_blank_run hl2 hD]
        simp
    · rw [collapseLines_cons_of_not_empty (Bool.not_eq_true _ ▸ hl2)]
      simp

theorem collapseLines_head? : ∀ (ls : List (List Char)), (collapseLines ls).head? = ls.head? := by
  intro ls
  match ls with
  | [] => rw [collapseLines_nil]
  | [l] => rw [collapseLines_singleton]
  | l :: l2 :: rest =>
    by_cases hl2 : l2.isEmpty = true
    · cases hD : (l2 :: rest).dropWhile (fun x => x.isEmpty) with
      | nil =>
        rw [collapseLines_cons_blank_all hl2 hD]
        split <;> rfl
      | cons l3 rest' =>
        rw [collapseLines_cons_blank_run hl2 hD]
        rfl
    · rw [collapseLines_cons_of_not_empty (Bool.not_eq_true _ ▸ hl2)]
      rfl

theorem mem_collapseLines : ∀ (n : Nat) (ls : List (List Char)), ls.length ≤ n →
    ∀ x ∈ collapseLines ls, x = [] ∨ x ∈ ls := by
  intro n
  induction n with
  | zero =>
    intro ls hlen x hx
    have : ls = [] := List.length_eq_zero.mp (Nat.le_zero.mp hlen)
    subst this
    rw [collapseLines_nil] at hx
    simp at hx
  | succ n' ih =>
    intro ls hlen x hx
    match ls with
    | [] =>
      rw [collapseLines_nil] at hx
      simp at hx
    | [l] =>
      rw [collapseLines_singleton] at hx
      exact Or.inr hx
    | l :: l2 :: rest =>
      by_cases hl2 : l2.isEmpty = true
      · cases hD : (l2 :: rest).dropWhile (fun x => x.isEmpty) with
        | nil =>
          rw [collapseLines_cons_blank_all hl2 hD] at hx
          split at hx <;> simp at hx <;>
            rcases hx with h | h <;> simp [h]
        | cons l3 rest' =>
          rw [collapseLines_cons_blank_run hl2 hD] at hx
          rcases List.mem_cons.mp hx with h | h
          · exact Or.inr (h ▸ List.mem_cons_self _ _)
          rcases List.mem_cons.mp h with h' | h'
          · exact Or.inl h'
          have this : (l3 :: rest').length ≤ n' := by
            have hsub := List.Sublist.length_le (hD ▸ List.dropWhile_sublist (fun x : List Char => x.isEmpty))
            simp only [List.length_cons] at hsub hlen ⊢
            omega
          rcases ih (l3 :: rest') this x h' with h'' | h''
          · exact Or.inl h''
          · refine Or.inr (List.mem_cons_of_mem _ ?_)
            exact (hD ▸ List.dropWhile_sublist (fun x : List Char => x.isEmpty)).subset h''
      · rw [collapseLines_cons_of_not_empty (Bool.not_eq_true _ ▸ hl2)] at hx
        rcases List.mem_cons.mp hx with h | h
        · exact Or.inr (h ▸ List.mem_cons_self _ _)
        · have hlen' : (l2 :: rest).length ≤ n' := by
            simp only [List.length_cons] at hlen ⊢
            omega
          rcases ih (l2 :: rest) hlen' x h with h'' | h''
          · exact Or.inl h''
          · exact Or.inr (List.mem_cons_of_mem _ h'')

/-- On a join of stripped newline-free lines, the regex pass acts exactly
as the line-level collapse. -/
theorem subCollapse_joinNl_aux : ∀ (n : Nat) (ls : List (List Char)), ls.length ≤ n →
    (∀ l ∈ ls, okLine l = true) →
    subCollapse (joinNl ls) = joinNl (collapseLines ls) := by
  intro n
  induction n with
  | zero =>
    intro ls hlen hok
    have hnil : ls = [] := List.length_eq_zero.mp (Nat.le_zero.mp hlen)
    subst hnil
    rw [collapseLines_nil]
    exact subCollapse_nil
  | succ n' ih =>
    intro ls hlen hok
    match ls with
    | [] =>
      rw [collapseLines_nil]
      exact subCollapse_nil
    | [l] =>
      rw [collapseLines_singleton]
      exact subCollapse_no_newline ((okLine_iff.mp (hok l (List.mem_cons_self _ _))).1)
    | l :: l2 :: rest =>
      have hokl : okLine l = true := hok l (List.mem_cons_self _ _)
      have hnl : '\n' ∉ l := (okLine_iff.mp hokl).1
      have hok2 : ∀ m ∈ l2 :: rest, okLine m = true := fun m hm =>
        hok m (List.mem_cons_of_mem _ hm)
      have hlen2 : (l2 :: rest).length ≤ n' := by
        simp only [List.length_cons] at hlen ⊢
        omega
      rw [joinNl_cons_of_ne_nil _ (by simp)]
      by_cases hl2 : l2.isEmpty = true
      · cases hD : (l2 :: rest).dropWhile (fun x => x.isEmpty) with
        | nil =>
          have hall : ∀ x ∈ l2 :: rest, x = [] := fun x hx =>
            List.isEmpty_iff.mp (List.dropWhile_eq_nil_iff.mp hD x hx)
          have hrepl : l2 :: rest = List.replicate (rest.length + 1) ([] : List Char) :=
            List.eq_replicate_iff.mpr ⟨by simp, hall⟩
          have hsimp : ('\n' :: List.replicate (rest.length + 1 - 1) '\n') =
              List.replicate (rest.length + 1) '\n' := by
            simp [List.replicate_succ]
          rw [collapseLines_cons_blank_all hl2 hD]
          rw [hrepl, joinNl_empties (by omega)]
          rw [hsimp, subCollapse_append _ hnl, subCollapse_replicate_nl]
          by_cases hrest : rest.isEmpty = true
          · have hzero : rest.length = 0 := by
              simpa [List.isEmpty_iff_length_eq_zero] using hrest
            rw [if_pos hrest, if_pos (by omega), hzero]
            rw [joinNl_cons_of_ne_nil _ (by simp)]
            rfl
          · have hpos : rest.length ≠ 0 := by
              intro hzero
              exact hrest (List.isEmpty_iff_length_eq_zero.mpr hzero)
            rw [if_neg hrest, if_neg (by omega)]
            rw [joinNl_cons_of_ne_nil _ (by simp)]
            rfl
        | cons l3 rest' =>
          obtain ⟨k, hTk⟩ :
              ∃ k, (l2 :: rest).takeWhile (fun x : List Char => x.isEmpty) =
                List.replicate k ([] : List Char) := by
            refine ⟨((l2 :: rest).takeWhile (fun x : List Char => x.isEmpty)).length,
              List.eq_replicate_iff.mpr ⟨rfl, ?_⟩⟩
            intro b hb
            exact List.isEmpty_iff.mp (List.mem_takeWhile_imp hb)
          have hk1 : 1 ≤ k := by
            rw [List.takeWhile_cons_of_pos hl2] at hTk
            rcases k with _ | k'
            · simp at hTk
            · omega
          have hl3ne : l3.isEmpty = false :=
            head?_dropWhile_not (fun x : List Char => x.isEmpty) (l2 :: rest) l3
              (by rw [hD]; rfl)
          have hl3 : l3 ≠ [] := by
            intro hcon
            rw [hcon] at hl3ne
            simp at hl3ne
          have hok3 : ∀ m ∈ l3 :: rest', okLine m = true := fun m hm =>
            hok2 m ((hD ▸ List.dropWhile_sublist (fun x : List Char => x.isEmpty)).subset hm)
          have hlen3 : (l3 :: rest').length ≤ n' := by
            have hsub := List.Sublist.length_le
              (hD ▸ List.dropWhile_sublist (fun x : List Char => x.isEmpty))
            simp only [List.length_cons] at hsub hlen ⊢
            omega
          have hjoin2 : joinNl (l2 :: rest) =
              List.replicate k '\n' ++ joinNl (l3 :: rest') := by
            conv_lhs => rw [← List.takeWhile_append_dropWhile
              (p := fun x : List Char => x.isEmpty) (l := l2 :: rest), hTk, hD]
            exact joinNl_empties_append (by simp)
          have hcons : ('\n' :: (List.replicate k '\n' ++ joinNl (l3 :: rest'))) =
              List.replicate (k + 1) '\n' ++ joinNl (l3 :: rest') := by
            simp [List.replicate_succ]
          rw [hjoin2, hcons, subCollapse_append _ hnl]
          rw [subCollapse_replicate_nl_append (by omega) (fun c hc => by
            rw [joinNl_head? _ hl3] at hc
            exact okLine_head_not_space (hok3 l3 (List.mem_cons_self _ _)) c hc)]
          rw [ih (l3 :: rest') hlen3 hok3]
          rw [collapseLines_cons_blank_run hl2 hD]
          rw [joinNl_cons_of_ne_nil _ (by simp),
            joinNl_cons_of_ne_nil _ (collapseLines_ne_nil (by simp))]
          rfl
      · have hl2' : l2.isEmpty = false := Bool.not_eq_true _ ▸ hl2
        have hl2ne : l2 ≠ [] := by
          intro hcon
          rw [hcon] at hl2'
          simp at hl2'
        rw [subCollapse_append _ hnl]
        rw [subCollapse_nl_single (fun c hc => by
          rw [joinNl_head? _ hl2ne] at hc
          exact okLine_head_not_space (hok2 l2 (List.mem_cons_self _ _)) c hc)]
        rw [ih (l2 :: rest) hlen2 hok2]
        rw [collapseLines_cons_of_not_empty hl2']
        rw [joinNl_cons_of_ne_nil _ (collapseLines_ne_nil (by simp))]

/-- Wrapper for `subCollapse_joinNl_aux`. -/
theorem subCollapse_joinNl {ls : List (List Char)} (hok : ∀ l ∈ ls, okLine l = true) :
    subCollapse (joinNl ls) = joinNl (collapseLines ls) :=
  subCollapse_joinNl_aux ls.length ls le_rfl hok

/-! ## Helper lemmas: stripping a join of lines -/

theorem dropWhile_joinNl (ls : List (List Char)) :
    (∀ l ∈ ls, okLine l = true) →
    (joinNl ls).dropWhile isPySpace = joinNl (ls.dropWhile fun l => l.isEmpty) := by
  induction ls with
  | nil => intro _; rfl
  | cons l ls ih =>
    intro hok
    have hokl := hok l (List.mem_cons_self _ _)
    have hok' : ∀ m ∈ ls, okLine m = true := fun m hm => hok m (List.mem_cons_of_mem _ hm)
    by_cases hl : l.isEmpty = true
    · have hl' : l = [] := List.isEmpty_iff.mp hl
      subst hl'
      cases ls with
      | nil => rfl
      | cons x xs =>
        rw [joinNl_cons_of_ne_nil _ (by simp), List.nil_append,
          List.dropWhile_cons_of_pos (show isPySpace '\n' = true by decide),
          List.dropWhile_cons_of_pos (show ([] : List Char).isEmpty = true by decide),
          ih hok']
    · have hl' : l.isEmpty = false := Bool.not_eq_true _ ▸ hl
      have hlne : l ≠ [] := by
        intro hcon
        rw [hcon] at hl'
        simp at hl'
      rw [List.dropWhile_cons_of_neg (by simp [hl'])]
      refine dropWhile_eq_self_of_head fun c hc => ?_
      rw [joinNl_head? _ hlne] at hc
      exact okLine_head_not_space hokl c hc

theorem joinNl_append_singleton (z : List Char) :
    ∀ (Y : List (List Char)), Y ≠ [] → joinNl (Y ++ [z]) = joinNl Y ++ '\n' :: z := by
  intro Y
  induction Y with
  | nil => intro h; exact absurd rfl h
  | cons y Y' ih =>
    intro _
    cases Y' with
    | nil => rfl
    | cons w W =>
      rw [List.cons_append, joinNl_cons_of_ne_nil _ (by simp), ih (by simp)]
      conv_rhs => rw [joinNl_cons_of_ne_nil _ (by simp : w :: W ≠ [])]
      simp

theorem reverse_joinNl : ∀ (ls : List (List Char)),
    (joinNl ls).reverse = joinNl ((ls.map List.reverse).reverse) := by
  intro ls
  induction ls with
  | nil => rfl
  | cons l ls ih =>
    cases ls with
    | nil => rfl
    | cons x xs =>
      rw [joinNl_cons_of_ne_nil _ (by simp), List.reverse_append, List.reverse_cons, ih]
      conv_rhs => rw [List.map_cons, List.reverse_cons]
      rw [joinNl_append_singleton _ _ (by simp)]
      simp

theorem isEmpty_reverse (l : List Char) : l.reverse.isEmpty = l.isEmpty := by
  cases l <;> simp [List.isEmpty_iff]

theorem pyStrip_joinNl {ls : List (List Char)} (hok : ∀ l ∈ ls, okLine l = true) :
    pyStrip (joinNl ls) = joinNl (dropBlankEnds ls) := by
  have h1 : (joinNl ls).dropWhile isPySpace = joinNl (ls.dropWhile fun l => l.isEmpty) :=
    dropWhile_joinNl ls hok
  set A := ls.dropWhile fun l => l.isEmpty with hA
  have hokA : ∀ l ∈ A, okLine l = true := fun l hl =>
    hok l ((List.dropWhile_sublist _).subset hl)
  have hokB : ∀ l ∈ (A.map List.reverse).reverse, okLine l = true := by
    intro l hl
    rw [List.mem_reverse, List.mem_map] at hl
    obtain ⟨m, hm, rfl⟩ := hl
    exact okLine_reverse (hokA m hm)
  have h3 : (joinNl ((A.map List.reverse).reverse)).dropWhile isPySpace =
      joinNl (((A.map List.reverse).reverse).dropWhile fun l => l.isEmpty) :=
    dropWhile_joinNl _ hokB
  have hcomp : ((fun l : List Char => l.isEmpty) ∘ List.reverse) =
      fun l : List Char => l.isEmpty := by
    funext x
    simp [Function.comp, isEmpty_reverse]
  have hrr : (List.reverse ∘ List.reverse) = (id : List Char → List Char) :=
    funext fun x => List.reverse_reverse x
  have e2 : ((A.map List.reverse).reverse.dropWhile fun l => l.isEmpty) =
      (A.reverse.dropWhile fun l => l.isEmpty).map List.reverse := by
    rw [show (A.map List.reverse).reverse = A.reverse.map List.reverse from
      (List.map_reverse _ _).symm, List.dropWhile_map, hcomp]
  have step4 : (joinNl ((A.map List.reverse).reverse.dropWhile fun l => l.isEmpty)).reverse =
      joinNl (dropBlankEnds ls) := by
    rw [reverse_joinNl]
    congr 1
    rw [e2, List.map_map, hrr, List.map_id]
    rfl
  show ((((joinNl ls).dropWhile isPySpace).reverse).dropWhile isPySpace).reverse = _
  rw [h1, reverse_joinNl A, h3, step4]

/-! ## Helper lemmas: blank-line trimming -/

theorem dropTrailingBlanks_ne_nil : ∀ {xs : List (List Char)} {hd : List Char},
    xs.head? = some hd → hd.isEmpty = false → dropTrailingBlanks xs ≠ [] := by
  intro xs hd hh hne
  cases xs with
  | nil => simp at hh
  | cons x t =>
    simp only [List.head?_cons, Option.some_inj] at hh
    intro hcon
    have hrev : (x :: t).reverse.dropWhile (fun l => l.isEmpty) = [] := by
      have h2 := congrArg List.reverse hcon
      simpa [dropTrailingBlanks] using h2
    have hE := List.dropWhile_eq_nil_iff.mp hrev x (by simp)
    have hE' : hd.isEmpty = true := by simpa [hh] using hE
    rw [hne] at hE'
    exact absurd hE' (by simp)

theorem dropTrailingBlanks_cons {x : List Char} {xs : List (List Char)}
    (h : dropTrailingBlanks xs ≠ []) :
    dropTrailingBlanks (x :: xs) = x :: dropTrailingBlanks xs := by
  have hd : xs.reverse.dropWhile (fun l => l.isEmpty) ≠ [] := by
    intro hcon
    apply h
    rw [dropTrailingBlanks, hcon]
    rfl
  rw [dropTrailingBlanks, List.reverse_cons, List.dropWhile_append,
    if_neg (by simpa [List.isEmpty_iff] using hd), List.reverse_append]
  rfl

theorem dropTrailingBlanks_head? {xs : List (List Char)}
    (h : dropTrailingBlanks xs ≠ []) :
    (dropTrailingBlanks xs).head? = xs.head? := by
  obtain ⟨t, ht⟩ := List.dropWhile_suffix (l := xs.reverse) (fun l => l.isEmpty)
  have hx : xs = dropTrailingBlanks xs ++ t.reverse := by
    conv_lhs => rw [← List.reverse_reverse xs, ← ht]
    rw [List.reverse_append]
    rfl
  conv_rhs => rw [hx]
  rw [List.head?_append_of_ne_nil _ h]

/-! ## Helper lemmas: blank-line structure of the collapsed output -/

theorem noConsecBlank_cons (a : List Char) (xs : List (List Char)) :
    noConsecBlank (a :: xs) = (!(a.isEmpty && headBlank xs) && noConsecBlank xs) := by
  cases xs <;> simp [noConsecBlank, headBlank]

theorem headBlank_eq_false_of_head? {xs : List (List Char)} {hd : List Char}
    (hh : xs.head? = some hd) (hne : hd.isEmpty = false) : headBlank xs = false := by
  cases xs with
  | nil => rfl
  | cons x t =>
    simp only [List.head?_cons, Option.some_inj] at hh
    show x.isEmpty = false
    rw [hh]
    exact hne

theorem headBlank_append_left {X Y : List (List Char)} (hX : X ≠ []) :
    headBlank (X ++ Y) = headBlank X := by
  cases X with
  | nil => exact absurd rfl hX
  | cons x t => rfl

theorem dropWhile_isEmpty_of_headBlank {xs : List (List Char)} (h : headBlank xs = false) :
    xs.dropWhile (fun l => l.isEmpty) = xs := by
  cases xs with
  | nil => rfl
  | cons x t =>
    have hx : x.isEmpty = false := h
    exact List.dropWhile_cons_of_neg (by simp [hx])

theorem dropBlankEnds_eq_self {ls : List (List Char)} (hhead : headBlank ls = false)
    (hlast : headBlank ls.reverse = false) : dropBlankEnds ls = ls := by
  show dropTrailingBlanks (ls.dropWhile fun l => l.isEmpty) = ls
  rw [dropWhile_isEmpty_of_headBlank hhead]
  show (ls.reverse.dropWhile fun l => l.isEmpty).reverse = ls
  rw [dropWhile_isEmpty_of_headBlank hlast, List.reverse_reverse]

theorem mem_dropBlankEnds {ls : List (List Char)} {x : List Char}
    (hx : x ∈ dropBlankEnds ls) : x ∈ ls := by
  have h0 : x ∈ ((ls.dropWhile fun l => l.isEmpty).reverse.dropWhile fun l =>
      l.isEmpty).reverse := hx
  rw [List.mem_reverse] at h0
  have h1 := (List.dropWhile_sublist _).subset h0
  rw [List.mem_reverse] at h1
  exact (List.dropWhile_sublist _).subset h1

theorem dropBlankEnds_ends (ls : List (List Char)) (hnil : dropBlankEnds ls ≠ []) :
    headBlank (dropBlankEnds ls) = false ∧
      headBlank (dropBlankEnds ls).reverse = false := by
  constructor
  · have hTne : dropTrailingBlanks (ls.dropWhile fun l => l.isEmpty) ≠ [] := hnil
    have hh := dropTrailingBlanks_head? hTne
    cases hA : (ls.dropWhile fun l => l.isEmpty).head? with
    | none =>
      have hAnil : (ls.dropWhile fun l => l.isEmpty) = [] := List.head?_eq_none_iff.mp hA
      exact absurd (show dropBlankEnds ls = [] by
        show dropTrailingBlanks _ = []
        rw [hAnil]
        rfl) hnil
    | some hd =>
      have hdE : hd.isEmpty = false := head?_dropWhile_not _ ls hd hA
      refine headBlank_eq_false_of_head? ?_ hdE
      show (dropTrailingBlanks (ls.dropWhile fun l => l.isEmpty)).head? = some hd
      rw [hh, hA]
  · have hrev : (dropBlankEnds ls).reverse =
        (ls.dropWhile fun l => l.isEmpty).reverse.dropWhile (fun l => l.isEmpty) := by
      show (dropTrailingBlanks (ls.dropWhile fun l => l.isEmpty)).reverse = _
      show ((ls.dropWhile fun l => l.isEmpty).reverse.dropWhile fun l =>
        l.isEmpty).reverse.reverse = _
      rw [List.reverse_reverse]
    rw [hrev]
    cases hB : ((ls.dropWhile fun l => l.isEmpty).reverse.dropWhile
        (fun l => l.isEmpty)).head? with
    | none =>
      have hBnil := List.head?_eq_none_iff.mp hB
      refine absurd (show dropBlankEnds ls = [] from ?_) hnil
      show dropTrailingBlanks (ls.dropWhile fun l => l.isEmpty) = []
      show ((ls.dropWhile fun l => l.isEmpty).reverse.dropWhile fun l =>
        l.isEmpty).reverse = []
      rw [hBnil]
      rfl
    | some hd =>
      exact headBlank_eq_false_of_head? hB (head?_dropWhile_not _ _ hd hB)

theorem noConsec_dBE_collapseLines : ∀ (n : Nat) (ls : List (List Char)), ls.length ≤ n →
    noConsecBlank (dropBlankEnds (collapseLines ls)) = true := by
  intro n
  induction n with
  | zero =>
    intro ls hlen
    have hnil : ls = [] := List.length_eq_zero.mp (Nat.le_zero.mp hlen)
    subst hnil
    rw [collapseLines_nil]
    rfl
  | succ n' ih =>
    intro ls hlen
    match ls with
    | [] =>
      rw [collapseLines_nil]
      rfl
    | [l] =>
      rw [collapseLines_singleton]
      by_cases hl : l.isEmpty = true
      · have : dropBlankEnds [l] = [] := by
          show dropTrailingBlanks ([l].dropWhile fun x => x.isEmpty) = []
          rw [List.dropWhile_cons_of_pos hl]
          rfl
        rw [this]
        rfl
      · have hl' : l.isEmpty = false := Bool.not_eq_true _ ▸ hl
        have : dropBlankEnds [l] = [l] := by
          show dropTrailingBlanks ([l].dropWhile fun x => x.isEmpty) = [l]
          rw [List.dropWhile_cons_of_neg (by simp [hl'])]
          show ([l].reverse.dropWhile fun x => x.isEmpty).reverse = [l]
          simp [hl']
        rw [this]
        rfl
    | l :: l2 :: rest =>
      by_cases hl2 : l2.isEmpty = true
      · cases hD : (l2 :: rest).dropWhile (fun x => x.isEmpty) with
        | nil =>
          rw [collapseLines_cons_blank_all hl2 hD]
          have hcomp : ∀ (z : List (List Char)), (∀ y ∈ z, (y : List Char).isEmpty = true) →
              noConsecBlank (dropBlankEnds (l :: z)) = true := by
            intro z hz
            by_cases hl : l.isEmpty = true
            · have : dropBlankEnds (l :: z) = [] := by
                show dropTrailingBlanks ((l :: z).dropWhile fun x => x.isEmpty) = []
                rw [List.dropWhile_cons_of_pos hl,
                  List.dropWhile_eq_nil_iff.mpr (by intro x hx; exact hz x hx)]
                rfl
              rw [this]
              rfl
            · have hl' : l.isEmpty = false := Bool.not_eq_true _ ▸ hl
              have hz' : z.dropWhile (fun x : List Char => x.isEmpty) = [] :=
                List.dropWhile_eq_nil_iff.mpr (by intro x hx; exact hz x hx)
              have hrev : (l :: z).reverse.dropWhile (fun x : List Char => x.isEmpty) =
                  z.reverse.dropWhile (fun x : List Char => x.isEmpty) ++ [l] ∨
                  (l :: z).reverse.dropWhile (fun x : List Char => x.isEmpty) = [l] := by
                rw [List.reverse_cons, List.dropWhile_append]
                by_cases hzr : (z.reverse.dropWhile fun x : List Char => x.isEmpty).isEmpty = true
                · right
                  rw [if_pos hzr]
                  exact List.dropWhile_cons_of_neg (by simp [hl'])
                · left
                  rw [if_neg (by simp [hzr])]
              have : dropBlankEnds (l :: z) = [l] := by
                show dropTrailingBlanks ((l :: z).dropWhile fun x => x.isEmpty) = [l]
                rw [List.dropWhile_cons_of_neg (by simp [hl'])]
                show ((l :: z).reverse.dropWhile fun x => x.isEmpty).reverse = [l]
                have hallrev : ∀ y ∈ z.reverse, (y : List Char).isEmpty = true := by
                  intro y hy
                  exact hz y (List.mem_reverse.mp hy)
                rw [List.reverse_cons, List.dropWhile_append,
                  if_pos (by rw [List.dropWhile_eq_nil_iff.mpr hallrev]; rfl),
                  List.dropWhile_cons_of_neg (by simp [hl'])]
                rfl
              rw [this]
              rfl
          split
          · exact hcomp [[]] (by
              intro y hy
              have hy' : y = [] := by simpa using hy
              simp [hy'])
          · exact hcomp [[], []] (by
              intro y hy
              have hy' : y = [] := by simpa using hy
              simp [hy'])
        | cons l3 rest' =>
          rw [collapseLines_cons_blank_run hl2 hD]
          have hl3ne : l3.isEmpty = false :=
            head?_dropWhile_not (fun x : List Char => x.isEmpty) (l2 :: rest) l3
              (by rw [hD]; rfl)
          have hysne : collapseLines (l3 :: rest') ≠ [] := collapseLines_ne_nil (by simp)
          have hhead : (collapseLines (l3 :: rest')).head? = some l3 := by
            rw [collapseLines_head?]
            rfl
          have hlen3 : (l3 :: rest').length ≤ n' := by
            have hsub := List.Sublist.length_le
              (hD ▸ List.dropWhile_sublist (fun x : List Char => x.isEmpty))
            simp only [List.length_cons] at hsub hlen ⊢
            omega
          have hQ : noConsecBlank (dropBlankEnds (collapseLines (l3 :: rest'))) = true :=
            ih _ hlen3
          have hdys : (collapseLines (l3 :: rest')).dropWhile (fun x : List Char => x.isEmpty) =
              collapseLines (l3 :: rest') :=
            dropWhile_isEmpty_of_headBlank (headBlank_eq_false_of_head? hhead hl3ne)
          have hdBE : dropBlankEnds (collapseLines (l3 :: rest')) =
              dropTrailingBlanks (collapseLines (l3 :: rest')) := by
            show dropTrailingBlanks _ = _
            rw [hdys]
          have hTne : dropTrailingBlanks (collapseLines (l3 :: rest')) ≠ [] :=
            dropTrailingBlanks_ne_nil hhead hl3ne
          have hThead : (dropTrailingBlanks (collapseLines (l3 :: rest'))).head? = some l3 := by
            rw [dropTrailingBlanks_head? hTne, hhead]
          by_cases hl : l.isEmpty = true
          · have : dropBlankEnds (l :: [] :: collapseLines (l3 :: rest')) =
                dropTrailingBlanks (collapseLines (l3 :: rest')) := by
              show dropTrailingBlanks _ = _
              rw [List.dropWhile_cons_of_pos hl,
                List.dropWhile_cons_of_pos (show ([] : List Char).isEmpty = true by rfl), hdys]
            rw [this, ← hdBE]
            exact hQ
          · have hl' : l.isEmpty = false := Bool.not_eq_true _ ▸ hl
            have hT2ne : dropTrailingBlanks ([] :: collapseLines (l3 :: rest')) ≠ [] := by
              rw [dropTrailingBlanks_cons hTne]
              simp
            have hstep : dropBlankEnds (l :: [] :: collapseLines (l3 :: rest')) =
                l :: [] :: dropTrailingBlanks (collapseLines (l3 :: rest')) := by
              show dropTrailingBlanks _ = _
              rw [List.dropWhile_cons_of_neg (by simp [hl']),
                dropTrailingBlanks_cons hT2ne, dropTrailingBlanks_cons hTne]
            rw [hstep, noConsecBlank_cons, noConsecBlank_cons]
            have hTblank : headBlank (dropTrailingBlanks (collapseLines (l3 :: rest'))) = false :=
              headBlank_eq_false_of_head? hThead hl3ne
            have hQT : noConsecBlank (dropTrailingBlanks (collapseLines (l3 :: rest'))) = true :=
              hdBE ▸ hQ
            have hmid : headBlank ([] :: dropTrailingBlanks (collapseLines (l3 :: rest'))) =
                true := rfl
            simp [hl', hTblank, hQT, hmid]
      · have hl2' : l2.isEmpty = false := Bool.not_eq_true _ ▸ hl2
        rw [collapseLines_cons_of_not_empty hl2']
        have hysne : collapseLines (l2 :: rest) ≠ [] := collapseLines_ne_nil (by simp)
        have hhead : (collapseLines (l2 :: rest)).head? = some l2 := by
          rw [collapseLines_head?]
          rfl
        have hlen2 : (l2 :: rest).length ≤ n' := by
          simp only [List.length_cons] at hlen ⊢
          omega
        have hQ : noConsecBlank (dropBlankEnds (collapseLines (l2 :: rest))) = true :=
          ih _ hlen2
        have hdys : (collapseLines (l2 :: rest)).dropWhile (fun x : List Char => x.isEmpty) =
            collapseLines (l2 :: rest) :=
          dropWhile_isEmpty_of_headBlank (headBlank_eq_false_of_head? hhead hl2')
        have hdBE : dropBlankEnds (collapseLines (l2 :: rest)) =
            dropTrailingBlanks (collapseLines (l2 :: rest)) := by
          show dropTrailingBlanks _ = _
          rw [hdys]
        have hTne : dropTrailingBlanks (collapseLines (l2 :: rest)) ≠ [] :=
          dropTrailingBlanks_ne_nil hhead hl2'
        have hThead : (dropTrailingBlanks (collapseLines (l2 :: rest))).head? = some l2 := by
          rw [dropTrailingBlanks_head? hTne, hhead]
        by_cases hl : l.isEmpty = true
        · have : dropBlankEnds (l :: collapseLines (l2 :: rest)) =
              dropTrailingBlanks (collapseLines (l2 :: rest)) := by
            show dropTrailingBlanks _ = _
            rw [List.dropWhile_cons_of_pos hl, hdys]
          rw [this, ← hdBE]
          exact hQ
        · have hl' : l.isEmpty = false := Bool.not_eq_true _ ▸ hl
          have hstep : dropBlankEnds (l :: collapseLines (l2 :: rest)) =
              l :: dropTrailingBlanks (collapseLines (l2 :: rest)) := by
            show dropTrailingBlanks _ = _
            rw [List.dropWhile_cons_of_neg (by simp [hl']), dropTrailingBlanks_cons hTne]
          rw [hstep, noConsecBlank_cons]
          have hTblank : headBlank (dropTrailingBlanks (collapseLines (l2 :: rest))) = false :=
            headBlank_eq_false_of_head? hThead hl2'
          have hQT : noConsecBlank (dropTrailingBlanks (collapseLines (l2 :: rest))) = true :=
            hdBE ▸ hQ
          simp [hl', hTblank, hQT]

/-! ## Helper lemmas: identity of the collapse on clean input -/

theorem collapseLines_eq_self : ∀ (n : Nat) (ls : List (List Char)), ls.length ≤ n →
    noConsecBlank ls = true → headBlank ls.reverse = false → collapseLines ls = ls := by
  intro n
  induction n with
  | zero =>
    intro ls hlen _ _
    have hnil : ls = [] := List.length_eq_zero.mp (Nat.le_zero.mp hlen)
    subst hnil
    exact collapseLines_nil
  | succ n' ih =>
    intro ls hlen hcons hlast
    match ls with
    | [] => exact collapseLines_nil
    | [l] => exact collapseLines_singleton l
    | l :: l2 :: rest =>
      have hcons2 : noConsecBlank (l2 :: rest) = true := by
        rw [noConsecBlank_cons] at hcons
        exact (Bool.and_eq_true_iff.mp hcons).2
      have hlast2 : headBlank (l2 :: rest).reverse = false := by
        rw [List.reverse_cons] at hlast
        rwa [headBlank_append_left (by simp)] at hlast
      by_cases hl2 : l2.isEmpty = true
      · cases rest with
        | nil =>
          exfalso
          simp [headBlank, hl2] at hlast
        | cons r rest2 =>
          have hr : r.isEmpty = false := by
            rw [noConsecBlank_cons] at hcons2
            have h1 := (Bool.and_eq_true_iff.mp hcons2).1
            simpa [hl2, headBlank] using h1
          have hD : (l2 :: r :: rest2).dropWhile (fun x : List Char => x.isEmpty) =
              r :: rest2 := by
            rw [List.dropWhile_cons_of_pos hl2, List.dropWhile_cons_of_neg (by simp [hr])]
          rw [collapseLines_cons_blank_run hl2 hD]
          have hcons3 : noConsecBlank (r :: rest2) = true := by
            rw [noConsecBlank_cons] at hcons2
            exact (Bool.and_eq_true_iff.mp hcons2).2
          have hlast3 : headBlank (r :: rest2).reverse = false := by
            rw [List.reverse_cons] at hlast2
            rwa [headBlank_append_left (by simp)] at hlast2
          have hlen3 : (r :: rest2).length ≤ n' := by
            simp only [List.length_cons] at hlen ⊢
            omega
          rw [ih _ hlen3 hcons3 hlast3, List.isEmpty_iff.mp hl2]
      · have hl2' : l2.isEmpty = false := Bool.not_eq_true _ ▸ hl2
        rw [collapseLines_cons_of_not_empty hl2']
        have hlen2 : (l2 :: rest).length ≤ n' := by
          simp only [List.length_cons] at hlen ⊢
          omega
        rw [ih _ hlen2 hcons2 hlast2]

theorem okLine_of_pyStrip_eq {l : List Char} (hnl : '\n' ∉ l) (hs : pyStrip l = l) :
    okLine l = true := by
  have hlen := congrArg List.length hs
  have hlen1 : ((l.dropWhile isPySpace).reverse.dropWhile isPySpace).length = l.length := by
    simpa [pyStrip] using hlen
  have hle1 : ((l.dropWhile isPySpace).reverse.dropWhile isPySpace).length ≤
      (l.dropWhile isPySpace).length := by
    simpa using
      (List.dropWhile_sublist (l := (l.dropWhile isPySpace).reverse) isPySpace).length_le
  have hle2 : (l.dropWhile isPySpace).length ≤ l.length := (List.dropWhile_sublist _).length_le
  have hA : l.dropWhile isPySpace = l :=
    (List.dropWhile_sublist _).eq_of_length (by omega)
  have hB : l.reverse.dropWhile isPySpace = l.reverse := by
    have h0 : (l.reverse.dropWhile isPySpace).reverse = l := by
      have h1 : pyStrip l = (l.reverse.dropWhile isPySpace).reverse := by
        show ((l.dropWhile isPySpace).reverse.dropWhile isPySpace).reverse = _
        rw [hA]
      rw [← h1, hs]
    have h2 := congrArg List.reverse h0
    simpa using h2
  rw [okLine_iff]
  exact ⟨hnl, hA, hB⟩

/-- Every result of the normalization pipeline of `parse_div_content` is in
the spec's normal form. -/
theorem isNormalized_normalize (raw : List Char) : isNormalized (normalize_text raw) = true := by
  have hok : ∀ l ∈ (splitNl raw).map pyStrip, okLine l = true := by
    intro l hl
    rw [List.mem_map] at hl
    obtain ⟨m, hm, rfl⟩ := hl
    exact okLine_pyStrip (not_newline_mem_splitNl raw m hm)
  have hokC : ∀ l ∈ collapseLines ((splitNl raw).map pyStrip), okLine l = true := by
    intro l hl
    rcases mem_collapseLines ((splitNl raw).map pyStrip).length _ le_rfl l hl with h | h
    · rw [h]
      exact okLine_nil
    · exact hok l h
  have e1 : normalize_text raw =
      joinNl (dropBlankEnds (collapseLines ((splitNl raw).map pyStrip))) := by
    show pyStrip (subCollapse (joinNl ((splitNl raw).map pyStrip))) = _
    rw [subCollapse_joinNl hok, pyStrip_joinNl hokC]
  have hQ : noConsecBlank (dropBlankEnds (collapseLines ((splitNl raw).map pyStrip))) = true :=
    noConsec_dBE_collapseLines ((splitNl raw).map pyStrip).length _ le_rfl
  rw [e1]
  by_cases hnil : dropBlankEnds (collapseLines ((splitNl raw).map pyStrip)) = []
  · rw [hnil]
    rfl
  · obtain ⟨hh, hlst⟩ := dropBlankEnds_ends _ hnil
    have hokL : ∀ l ∈ dropBlankEnds (collapseLines ((splitNl raw).map pyStrip)),
        okLine l = true := fun l hl => hokC l (mem_dropBlankEnds hl)
    have hnlL : ∀ l ∈ dropBlankEnds (collapseLines ((splitNl raw).map pyStrip)), '\n' ∉ l :=
      fun l hl => (okLine_iff.mp (hokL l hl)).1
    have hsplit : splitNl (joinNl (dropBlankEnds (collapseLines ((splitNl raw).map pyStrip)))) =
        dropBlankEnds (collapseLines ((splitNl raw).map pyStrip)) :=
      splitNl_joinNl hnil hnlL
    have hjne : joinNl (dropBlankEnds (collapseLines ((splitNl raw).map pyStrip))) ≠ [] := by
      cases hL : dropBlankEnds (collapseLines ((splitNl raw).map pyStrip)) with
      | nil => exact absurd hL hnil
      | cons l0 t =>
        have hl0 : l0.isEmpty = false := by
          rw [hL] at hh
          exact hh
        have hl0ne : l0 ≠ [] := by
          intro hc
          rw [hc] at hl0
          simp at hl0
        intro hcon
        have hhd := joinNl_head? t hl0ne
        rw [hcon] at hhd
        cases hx : l0 with
        | nil => exact hl0ne hx
        | cons a b =>
          rw [hx] at hhd
          simp at hhd
    have hall : (dropBlankEnds (collapseLines ((splitNl raw).map pyStrip))).all
        (fun l => pyStrip l == l) = true := by
      rw [List.all_eq_true]
      intro x hx
      have hps := pyStrip_eq_self_of_okLine (hokL x hx)
      simp [hps]
    have hne' : (joinNl (dropBlankEnds (collapseLines ((splitNl raw).map pyStrip)))).isEmpty
        = false := by
      simpa [List.isEmpty_iff] using hjne
    simp only [isNormalized, hsplit]
    simp [hall, hQ, hh, hlst, hne']

/-! ## Claim theorems -/

/-- C5: on fetch failure (transport error, non-success status, or falsy
body — every case in which `fetch_website_content`'s result fails the
`if not html_content:` guard) the run aborts without persisting any
snapshot, emits exactly one diagnostic notification describing the failure,
and queues no change notifications; `mainRun` consumes a single fetch
outcome, so there is no retry within the run. -/
theorem C5_fetch_failure_aborts (fs : FileState) :
    (mainRun none fs).persisted = none ∧
    (mainRun none fs).diagnostics = [⟨fetchFailureMessage, "Website Fetch Error"⟩] ∧
    (mainRun none fs).notifications = [] :=
  ⟨rfl, rfl, rfl⟩

/-- C5 witness at a concrete file state. -/
theorem C5_fetch_failure_aborts_witness :
    (mainRun none .missing).persisted = none ∧
    (mainRun none .missing).diagnostics = [⟨fetchFailureMessage, "Website Fetch Error"⟩] ∧
    (mainRun none .missing).notifications = [] :=
  C5_fetch_failure_aborts .missing

/-- C4: on the first run (no snapshot file), with current contents
`{rainfalls ↦ "Advisory X", thunderstorms ↦ not-found sentinel}`, exactly
one notification is queued (for the Rainfall Advisory) and the persisted
snapshot holds both entries verbatim, the sentinel included. -/
theorem C4_first_run_scenario :
    runFilter (is_first_overall_run .missing) (load_previous_data .missing)
      (fun i => if i = "rainfalls" then "Advisory X".toList else notFoundSentinel "thunderstorms") =
      ([⟨"Advisory X".toList, "Rainfall Advisory"⟩],
       [("rainfalls", "Advisory X".toList),
        ("thunderstorms", notFoundSentinel "thunderstorms")]) := by
  decide

/-- C2, behaviour at the failing input: with previous snapshot entry `"A"`
and current extracted text `""`, the change test of line 223 sets
`should_notify` (the empty string differs from `"A"`), yet the queueing
guard `if should_notify and content:` of line 231 evaluates the empty
string as falsy and queues nothing — contradicting the code's own comments
(lines 225–227) and the claim, which expect a transition into an empty
state to be reported. -/
theorem C2_empty_transition_dropped :
    should_notify_fn false (some "A".toList) [] = true ∧
    ([] : List Char) ≠ "A".toList ∧
    queued_notification false (some "A".toList) [] "Rainfall Advisory" = none := by
  exact ⟨by decide, by decide, by decide⟩

/-- C6 counterexample: on total fetch failure the run aborts before
building any extracted mapping, so no mapping containing every Section key
exists for that run — the claim's "every Section degrades to an explicit
failure value in that mapping" is false because there is no mapping at
all. -/
theorem C6_counterexample :
    ¬∃ m, (mainRun none FileState.missing).persisted = some m := by
  simp [mainRun, RunOutcome.persisted]

/-- C6 amended: whenever the run proceeds past the fetch guard, the
extracted mapping it builds (and persists) contains every configured
Section key, bound to that section's extracted text or sentinel; a page on
which a section's container is missing degrades that section to the
not-found sentinel inside the mapping, but a total fetch failure aborts the
run with no mapping. -/
theorem C6_mapping_total_when_fetched (doc : Doc) (fs : FileState) :
    ∃ n m, mainRun (some doc) fs = .completed n m ∧
      m.lookup "rainfalls" = some (parse_div_content doc "rainfalls") ∧
      m.lookup "thunderstorms" = some (parse_div_content doc "thunderstorms") :=
  ⟨_, _, rfl, rfl, rfl⟩

/-- C7: running the change filter again with the snapshot produced by a
first run and the same extracted contents (first-run flag off) queues no
notifications. -/
theorem C7_second_run_idempotent (is_first : Bool)
    (previous_data : List (String × List Char)) (contents : String → List Char) :
    (runFilter false (runFilter is_first previous_data contents).2 contents).1 = [] := by
  simp [runFilter, DIV_IDS, queued_notification, should_notify_fn, List.lookup]

/-- C9: a missing snapshot file and an existing-but-undecodable (for
example empty) snapshot file lead to identical queued notifications for
every current extracted mapping, and in both cases a section is notified
exactly when its content is non-empty and matches no sentinel marker. -/
theorem C9_missing_eq_empty_document (contents : String → List Char) :
    (runFilter (is_first_overall_run .missing) (load_previous_data .missing) contents).1 =
      (runFilter (is_first_overall_run .undecodable) (load_previous_data .undecodable) contents).1 ∧
    (runFilter (is_first_overall_run .missing) (load_previous_data .missing) contents).1 =
      ((if !(contents "rainfalls").isEmpty && !sentinelLike (contents "rainfalls") then
          [⟨contents "rainfalls", "Rainfall Advisory"⟩] else []) ++
       (if !(contents "thunderstorms").isEmpty && !sentinelLike (contents "thunderstorms") then
          [⟨contents "thunderstorms", "Thunderstorm Advisory/Watch"⟩] else [])) := by
  constructor
  · rfl
  · simp only [runFilter, DIV_IDS, load_previous_data, is_first_overall_run,
      List.foldl_cons, List.foldl_nil, List.lookup, queued_notification, should_notify_fn]
    cases h1 : !(contents "rainfalls").isEmpty && !sentinelLike (contents "rainfalls") <;>
      cases h2 : !(contents "thunderstorms").isEmpty && !sentinelLike (contents "thunderstorms") <;>
        simp_all [List.isEmpty_iff]

/-- C10: the sentinel test of the first-run and new-section branches is a
substring test, not a tag test: any content containing `"could not be
found"`, `"Error parsing"` or `"Critical parsing"` — genuine advisory text
included — is classified invalid there and queues no notification. -/
theorem C10_substring_sentinel_suppression (b : Bool) (previous_content : Option (List Char))
    (content : List Char) (advisory_name : String)
    (hsent : sentinelLike content = true)
    (hbranch : b = true ∨ previous_content = none) :
    queued_notification b previous_content content advisory_name = none := by
  rcases hbranch with h | h
  · subst h
    simp [queued_notification, should_notify_fn, hsent]
  · subst h
    cases b <;> simp [queued_notification, should_notify_fn, hsent]

/-- C10 witness: genuine advisory text that merely mentions
`"Error parsing"` is suppressed on a first run. -/
theorem C10_substring_sentinel_suppression_witness :
    sentinelLike "Advisory: Error parsing of river gauges continues".toList = true ∧
    queued_notification true none "Advisory: Error parsing of river gauges continues".toList
      "Rainfall Advisory" = none :=
  ⟨by decide,
    C10_substring_sentinel_suppression true none _ "Rainfall Advisory" (by decide) (Or.inl rfl)⟩

/-- C1 (spec-modelled): in the specification's Change Filter, real
(non-sentinel) content containing any configured suppress phrase is never
notified, whatever the first-run flag, the previous SectionText and the
change-detection outcome, while the Snapshot entry is still updated to the
current SectionText. -/
theorem C1_suppress_phrase_skips (suppress : List (List Char)) (is_first_run : Bool)
    (prev : Option SectionText) (t : List Char)
    (hsup : (suppress.any fun ph => pyIn ph t) = true) :
    spec_filterSection suppress is_first_run prev (.found t) = (none, .found t) := by
  simp [spec_filterSection, hsup]

/-- C3: for every document and Section key, the Extractor returns either
the not-found sentinel, or the parse-error sentinel (reachable in the
Python only through the `except` handler, never in the total model), or
text in normal form: lines individually stripped, no run of more than one
blank line, no blank line at the very start or end.  The Lean function is
total and returns a `List Char`, embedding "never null and never raises
past the component". -/
theorem C3_extractor_output_shape (doc : Doc) (div_id : String) :
    parse_div_content doc div_id = notFoundSentinel div_id ∨
    parse_div_content doc div_id = parseErrorSentinel div_id ∨
    isNormalized (parse_div_content doc div_id) = true := by
  cases hf : findDivById div_id doc with
  | none =>
    left
    simp only [parse_div_content, hf]
  | some target =>
    right
    right
    have hshape : parse_div_content doc div_id =
        normalize_text (textParts (childrenOf
          ((firstChildDiv (childrenOf target)).getD target))) := by
      simp only [parse_div_content, hf]
    rw [hshape]
    exact isNormalized_normalize _

/-- C8: the Extractor's normalization pass is the identity on already-clean
text — every line stripped, no two consecutive blank lines, no blank line
at the start or end. -/
theorem C8_normalize_clean_identity (t : List Char)
    (hstrip : ∀ l ∈ splitNl t, pyStrip l = l)
    (hcons : noConsecBlank (splitNl t) = true)
    (hhead : headBlank (splitNl t) = false)
    (hlast : headBlank (splitNl t).reverse = false) :
    normalize_text t = t := by
  have hok : ∀ l ∈ splitNl t, okLine l = true := fun l hl =>
    okLine_of_pyStrip_eq (not_newline_mem_splitNl t l hl) (hstrip l hl)
  have hmap : (splitNl t).map pyStrip = splitNl t := by
    calc (splitNl t).map pyStrip = (splitNl t).map id :=
          List.map_congr_left fun a ha => hstrip a ha
      _ = splitNl t := List.map_id _
  show pyStrip (subCollapse (joinNl ((splitNl t).map pyStrip))) = t
  rw [hmap, subCollapse_joinNl hok,
    collapseLines_eq_self (splitNl t).length _ le_rfl hcons hlast,
    pyStrip_joinNl hok, dropBlankEnds_eq_self hhead hlast, joinNl_splitNl]

/-- C8 witness: a two-paragraph clean text is returned unchanged. -/
theorem C8_normalize_clean_identity_witness :
    (∀ l ∈ splitNl "First paragraph line.\nSecond line.\n\nNext paragraph.".toList,
      pyStrip l = l) ∧
    noConsecBlank (splitNl "First paragraph line.\nSecond line.\n\nNext paragraph.".toList)
      = true ∧
    headBlank (splitNl "First paragraph line.\nSecond line.\n\nNext paragraph.".toList)
      = false ∧
    headBlank (splitNl "First paragraph line.\nSecond line.\n\nNext paragraph.".toList).reverse
      = false ∧
    normalize_text "First paragraph line.\nSecond line.\n\nNext paragraph.".toList =
      "First paragraph line.\nSecond line.\n\nNext paragraph.".toList :=
  ⟨by decide, by decide, by decide, by decide,
    C8_normalize_clean_identity _ (by decide) (by decide) (by decide) (by decide)⟩

/-- C1 witness: suppressed real content that differs from the previous
snapshot entry (so change detection alone would notify). -/
theorem C1_suppress_phrase_skips_witness :
    ((["no public advisory".toList].any fun ph =>
        pyIn ph "Reminder: no public advisory today".toList) = true) ∧
    spec_filterSection ["no public advisory".toList] false (some (.found "old text".toList))
      (.found "Reminder: no public advisory today".toList) =
      (none, .found "Reminder: no public advisory today".toList) :=
  ⟨by decide, C1_suppress_phrase_skips _ false _ _ (by decide)⟩

end Pagasa
